import Mathlib

/-
Shallow embedding of the message-session lifecycle and batching engine of
ProjectFrederica (src/src/user_session.py, src/src/message_processor.py,
src/src/wechat_client.py), together with proofs settling the frozen claims.

Timestamps are modelled as Int (seconds); every call site of datetime.now()
in the Python source becomes an explicit `now : Int` parameter.  The Python
dict of user sessions is modelled as an insertion-ordered association list
(assignment to an existing key keeps its position, a new key is appended,
del removes the key), matching Python 3 dict semantics.
-/

set_option autoImplicit false

namespace Frederica

/-- Enumeration MessageType from user_session.py. -/
inductive MessageType where
  | text
  | image
  | voice
  | video
  | file
deriving DecidableEq, Repr

/-- Dataclass UserMessage from user_session.py. -/
structure UserMessage where
  message_id : String
  user_id : String
  content : String
  message_type : MessageType
  timestamp : Int
deriving DecidableEq, Repr

/-- Dataclass UserSession from user_session.py (state fields only). -/
structure UserSession where
  user_id : String
  message_queue : List UserMessage
  last_message_time : Option Int
  last_processed_time : Option Int
  is_processing : Bool
  conversation_start_time : Option Int
  conversation_end_time : Option Int
deriving DecidableEq, Repr

/-- A freshly constructed UserSession(user_id=uid): all defaults. -/
def UserSession.fresh (uid : String) : UserSession :=
  ⟨uid, [], none, none, false, none, none⟩

/-- UserSession.add_message: append to the queue, update last_message_time,
set conversation_start_time on the first message, reset conversation_end_time. -/
def UserSession.addMessage (s : UserSession) (m : UserMessage) : UserSession :=
  { s with
    message_queue := s.message_queue ++ [m]
    last_message_time := some m.timestamp
    conversation_start_time :=
      match s.conversation_start_time with
      | none => some m.timestamp
      | some t => some t
    conversation_end_time := none }

/-- UserSession.clear_queue: empty the queue and stamp last_processed_time. -/
def UserSession.clearQueue (s : UserSession) (now : Int) : UserSession :=
  { s with message_queue := [], last_processed_time := some now }

/-- UserSession.should_process_batch: false on an empty queue, while
processing, or with no last_message_time; otherwise true iff the elapsed
time since the last message is at least batch_timeout. -/
def UserSession.shouldProcessBatch (s : UserSession) (batch_timeout : Int) (now : Int) : Bool :=
  if s.message_queue.isEmpty then false
  else if s.is_processing then false
  else
    match s.last_message_time with
    | none => false
    | some t => decide (batch_timeout ≤ now - t)

/-- UserSession.is_conversation_expired: true if conversation_start_time is
unset or conversation_end_time is set; otherwise compares the elapsed time
since last_message_time (falling back to conversation_start_time) against
conversation_timeout. -/
def UserSession.isConversationExpired (s : UserSession) (conversation_timeout : Int) (now : Int) : Bool :=
  match s.conversation_start_time with
  | none => true
  | some start =>
    match s.conversation_end_time with
    | some _ => true
    | none =>
      match s.last_message_time with
      | none => decide (conversation_timeout ≤ now - start)
      | some t => decide (conversation_timeout ≤ now - t)

/-- UserSession.end_conversation: stamp conversation_end_time. -/
def UserSession.endConversation (s : UserSession) (now : Int) : UserSession :=
  { s with conversation_end_time := some now }

/-- The user_sessions dict, as an insertion-ordered association list. -/
abbrev Registry := List (String × UserSession)

/-- Dict lookup: user_sessions[uid] when present. -/
def lookupSession : Registry → String → Option UserSession
  | [], _ => none
  | (k, s) :: rest, uid => if k = uid then some s else lookupSession rest uid

/-- Dict assignment user_sessions[uid] = s: replaces the value of an existing
key in place, appends a new key at the end (Python 3 dict semantics). -/
def setSession : Registry → String → UserSession → Registry
  | [], uid, s => [(uid, s)]
  | (k, s0) :: rest, uid, s =>
    if k = uid then (k, s) :: rest else (k, s0) :: setSession rest uid s

/-- UserSessionManager: the configuration values it reads from
get_message_config plus the user_sessions dict.  The lock is not modelled:
every manager method runs atomically under self.lock, so the embedding makes
each method a single state transition. -/
structure UserSessionManager where
  max_users : Nat
  batch_timeout : Int
  conversation_timeout : Int
  user_sessions : Registry
deriving DecidableEq, Repr

/-- UserSessionManager.get_session: return the existing session, or create a
fresh one when under the max_users bound; `none` models the ValueError raised
when the bound is reached (CapacityExceeded). -/
def UserSessionManager.getSession (m : UserSessionManager) (uid : String) :
    Option (UserSessionManager × UserSession) :=
  match lookupSession m.user_sessions uid with
  | some s => some (m, s)
  | none =>
    if m.user_sessions.length ≥ m.max_users then none
    else
      let s := UserSession.fresh uid
      some ({ m with user_sessions := setSession m.user_sessions uid s }, s)

/-- Result of UserSessionManager.add_message: the returned bool, the new
manager state, and the session persisted to file on the expired path (the
side effect of _save_session_to_file), if any. -/
structure AddMessageResult where
  ok : Bool
  manager : UserSessionManager
  persisted : Option UserSession
deriving DecidableEq, Repr

/-- UserSessionManager.add_message: resolve the session via get_session (a
ValueError there is caught and surfaced as False with no state change); if
the conversation is expired, persist the old session and replace it with a
fresh one; then build the UserMessage (its timestamp defaults to now) and
append it to the queue. -/
def UserSessionManager.addMessage (m : UserSessionManager) (uid message_id content : String)
    (message_type : MessageType) (now : Int) : AddMessageResult :=
  match m.getSession uid with
  | none => ⟨false, m, none⟩
  | some (m1, s) =>
    let step :=
      if s.isConversationExpired m1.conversation_timeout now then
        ({ m1 with user_sessions := setSession m1.user_sessions uid (UserSession.fresh uid) },
         UserSession.fresh uid, some s)
      else (m1, s, none)
    let msg : UserMessage := ⟨message_id, uid, content, message_type, now⟩
    let s3 := step.2.1.addMessage msg
    ⟨true, { step.1 with user_sessions := setSession step.1.user_sessions uid s3 }, step.2.2⟩

/-- UserSessionManager.get_messages_for_processing: None when the user has no
session or should_process_batch is false; otherwise mark the session as
processing and return a copy of its queue (the queue itself is not touched). -/
def UserSessionManager.getMessagesForProcessing (m : UserSessionManager) (uid : String)
    (now : Int) : Option (List UserMessage) × UserSessionManager :=
  match lookupSession m.user_sessions uid with
  | none => (none, m)
  | some s =>
    if s.shouldProcessBatch m.batch_timeout now then
      (some s.message_queue,
       { m with user_sessions := setSession m.user_sessions uid { s with is_processing := true } })
    else (none, m)

/-- UserSessionManager.mark_processing_complete: no-op when the user has no
session; otherwise reset is_processing and, on success, clear the queue. -/
def UserSessionManager.markProcessingComplete (m : UserSessionManager) (uid : String)
    (success : Bool) (now : Int) : UserSessionManager :=
  match lookupSession m.user_sessions uid with
  | none => m
  | some s =>
    let s2 := { s with is_processing := false }
    { m with user_sessions := setSession m.user_sessions uid (if success then s2.clearQueue now else s2) }

/-- UserSessionManager.get_batch_candidates: the user ids whose sessions
satisfy should_process_batch. -/
def UserSessionManager.getBatchCandidates (m : UserSessionManager) (now : Int) : List String :=
  (m.user_sessions.filter (fun p => p.2.shouldProcessBatch m.batch_timeout now)).map (fun p => p.1)

/-- UserSessionManager.cleanup_expired_sessions: collect the expired users,
and for each one stamp conversation_end_time, persist it, and delete it from
the dict.  The collect-then-delete loop over the (distinct) dict keys has the
net effect of a partition by is_conversation_expired; the second component is
the list of sessions persisted to file, in registry order. -/
def UserSessionManager.cleanupExpiredSessions (m : UserSessionManager) (now : Int) :
    UserSessionManager × List UserSession :=
  ({ m with user_sessions :=
      m.user_sessions.filter (fun p => !(p.2.isConversationExpired m.conversation_timeout now)) },
   (m.user_sessions.filter (fun p => p.2.isConversationExpired m.conversation_timeout now)).map
     (fun p => p.2.endConversation now))

/-- strftime %H:%M:%S applied to a timestamp, reading the timestamp as local
seconds (time of day = timestamp mod 86400). -/
def formatTimeOfDay (t : Int) : String :=
  let sec := (t % 86400).toNat
  let pad := fun (n : Nat) => if n < 10 then "0" ++ toString n else toString n
  pad (sec / 3600) ++ ":" ++ pad (sec % 3600 / 60) ++ ":" ++ pad (sec % 60)

/-- The line MessageProcessor._merge_messages builds for one message:
"[HH:MM:SS] content". -/
def messageLine (m : UserMessage) : String :=
  "[" ++ formatTimeOfDay m.timestamp ++ "] " ++ m.content

/-- The merged_lines list of MessageProcessor._merge_messages: one line per
message, with a "<SEGMENTATION>" line after every message except the last. -/
def mergedLines : List UserMessage → List String
  | [] => []
  | [m] => [messageLine m]
  | m :: rest => messageLine m :: "<SEGMENTATION>" :: mergedLines rest

/-- str.join: sep between consecutive elements. -/
def joinWith (sep : String) : List String → String
  | [] => ""
  | [l] => l
  | l :: rest => l ++ sep ++ joinWith sep rest

/-- MessageProcessor._merge_messages: "\n".join(merged_lines). -/
def mergeMessages (msgs : List UserMessage) : String :=
  joinWith "\n" (mergedLines msgs)

/-- The merge policy in the words of the spec (for comparison with
mergeMessages): each message content prefixed by its local time of day,
separated by an explicit segmentation marker between messages, no marker
after the final message. -/
def specMergedTurn (msgs : List UserMessage) : String :=
  joinWith ("\n<SEGMENTATION>\n") (msgs.map messageLine)

/-- The segmentation marker used by _merge_messages and _parse_segmentation. -/
def markerChars : List Char := "<SEGMENTATION>".toList

/-- Python str.split(sep) for the fixed separator "<SEGMENTATION>", on char
lists: cut at every occurrence of the separator, keeping empty pieces.  The
fuel argument (instantiated with the length of the input, an upper bound on
the number of recursion steps since every step consumes at least one char)
only makes the recursion structural. -/
def splitOnMarker : Nat → List Char → List Char → List (List Char)
  | _, acc, [] => [acc.reverse]
  | 0, acc, rest => [acc.reverse ++ rest]
  | fuel + 1, acc, c :: rest =>
    if markerChars.isPrefixOf (c :: rest) then
      acc.reverse :: splitOnMarker fuel [] (List.drop markerChars.length (c :: rest))
    else
      splitOnMarker fuel (c :: acc) rest

/-- Python str.strip() whitespace test (ASCII whitespace). -/
def isSpaceChar (c : Char) : Bool := c = ' ' || c = '\t' || c = '\n' || c = '\r'

/-- Python str.strip(): drop leading and trailing whitespace. -/
def stripChars (l : List Char) : List Char :=
  ((l.dropWhile isSpaceChar).reverse.dropWhile isSpaceChar).reverse

/-- MessageProcessor._parse_segmentation: empty (falsy) input gives no
segments; otherwise split on "<SEGMENTATION>", strip each piece, keep only
the non-empty (truthy) pieces. -/
def parseSegmentation (content : String) : List String :=
  if content = "" then []
  else
    let pieces := splitOnMarker content.data.length [] content.data
    ((pieces.map stripChars).map (fun cs => String.mk cs)).filter (fun s => s != "")

/-- WeChatClient.send_messages, with the outcome of each send_text_message
call supplied by the oracle sendOk (indexed by segment position, since the
result depends on the network).  Mirrors the source: empty list returns True
immediately; otherwise the loop counts failures, and the final return is True
when fail_count == 0 and otherwise the value of the expression
fail_count == 0 (the comment in the source says a partial success should
count as success). -/
def sendMessages (segments : List String) (sendOk : Nat → Bool) : Bool :=
  if segments.isEmpty then true
  else
    let failCount := ((List.range segments.length).filter (fun i => !(sendOk i))).length
    if failCount = 0 then true else decide (failCount = 0)

/-- Number of segments whose send_text_message call succeeded. -/
def successCount (segments : List String) (sendOk : Nat → Bool) : Nat :=
  ((List.range segments.length).filter (fun i => sendOk i)).length

/-- Observable outcome of MessageProcessor._process_user_messages after the
LLM call: which segments were handed to send_messages (empty list means
_handle_llm_response returned before any delivery), whether delivery was
attempted at all, and the success flag passed to mark_processing_complete. -/
structure PipelineOutcome where
  deliveredSegments : List String
  deliveryAttempted : Bool
  completeSuccess : Bool
deriving DecidableEq, Repr

/-- MessageProcessor._handle_llm_response: parse the segments; when there are
none, return without sending; otherwise hand all segments to
send_messages (whose boolean result is only logged, never propagated). -/
def handleLLMResponse (content : String) : List String × Bool :=
  let segments := parseSegmentation content
  if segments.isEmpty then ([], false) else (segments, true)

/-- The completion logic of MessageProcessor._process_user_messages given the
result of _call_llm (its returned success flag and optional content):
only a truthy (non-None, non-empty) content on a successful call reaches
_handle_llm_response and is then marked complete with success=True; every
other case is marked complete with success=False. -/
def processOutcome (llmOk : Bool) (responseContent : Option String) : PipelineOutcome :=
  match llmOk, responseContent with
  | true, some c =>
    if c = "" then ⟨[], false, false⟩
    else
      let hr := handleLLMResponse c
      ⟨hr.1, hr.2, true⟩
  | _, _ => ⟨[], false, false⟩

/-- The mutating operations on the session manager, for stating properties
over arbitrary interleavings (each method runs atomically under the lock). -/
inductive Op where
  | add (uid message_id content : String) (message_type : MessageType) (now : Int)
  | extract (uid : String) (now : Int)
  | complete (uid : String) (success : Bool) (now : Int)
  | cleanup (now : Int)

/-- State transition of a single operation. -/
def applyOp (m : UserSessionManager) : Op → UserSessionManager
  | Op.add uid mid c mt now => (m.addMessage uid mid c mt now).manager
  | Op.extract uid now => (m.getMessagesForProcessing uid now).2
  | Op.complete uid ok now => m.markProcessingComplete uid ok now
  | Op.cleanup now => (m.cleanupExpiredSessions now).1

/-- State after a sequence of operations. -/
def applyOps (m : UserSessionManager) : List Op → UserSessionManager
  | [] => m
  | op :: rest => applyOps (applyOp m op) rest

/-- An operation that does not end, replace or reap the session of uid:
mark_processing_complete for uid is excluded, add_message for uid is allowed
only while the conversation of uid is not expired (an expired add_message
replaces the session), and cleanup is allowed only while the conversation of
uid is not expired (an expired cleanup reaps the session). -/
def opSafeFor (uid : String) (m : UserSessionManager) : Op → Bool
  | Op.add uid2 _ _ _ now =>
    if uid2 = uid then
      match lookupSession m.user_sessions uid with
      | some s => !(s.isConversationExpired m.conversation_timeout now)
      | none => false
    else true
  | Op.extract _ _ => true
  | Op.complete uid2 _ _ => uid2 != uid
  | Op.cleanup now =>
    match lookupSession m.user_sessions uid with
    | some s => !(s.isConversationExpired m.conversation_timeout now)
    | none => false

/-- A whole sequence of operations that keeps the session of uid alive. -/
def safeOps (uid : String) (m : UserSessionManager) : List Op → Bool
  | [] => true
  | op :: rest => opSafeFor uid m op && safeOps uid (applyOp m op) rest

/-! Registry (dict) lemmas. -/

theorem lookupSession_setSession_self (l : Registry) (uid : String) (s : UserSession) :
    lookupSession (setSession l uid s) uid = some s := by
  induction l with
  | nil => simp [setSession, lookupSession]
  | cons p rest ih =>
    obtain ⟨k, s0⟩ := p
    by_cases h : k = uid
    · simp [setSession, lookupSession, h]
    · simp [setSession, lookupSession, h, ih]

theorem lookupSession_setSession_other (l : Registry) (uid k2 : String) (s : UserSession)
    (h : k2 ≠ uid) : lookupSession (setSession l uid s) k2 = lookupSession l k2 := by
  induction l with
  | nil =>
    have hne : ¬ uid = k2 := fun e => h (Eq.symm e)
    simp [setSession, lookupSession, hne]
  | cons p rest ih =>
    obtain ⟨k, s0⟩ := p
    by_cases hk : k = uid
    · subst hk
      have hkk : ¬ k = k2 := fun e => h (Eq.symm e)
      simp [setSession, lookupSession, hkk]
    · by_cases hk2 : k = k2 <;> simp [setSession, lookupSession, hk, hk2, h, ih]

theorem setSession_setSession_self (l : Registry) (uid : String) (a b : UserSession) :
    setSession (setSession l uid a) uid b = setSession l uid b := by
  induction l with
  | nil => simp [setSession]
  | cons p rest ih =>
    obtain ⟨k, s0⟩ := p
    by_cases h : k = uid <;> simp [setSession, h, ih]

theorem length_setSession_of_some (l : Registry) (uid : String) (s s0 : UserSession)
    (h : lookupSession l uid = some s0) : (setSession l uid s).length = l.length := by
  induction l with
  | nil => simp [lookupSession] at h
  | cons p rest ih =>
    obtain ⟨k, s1⟩ := p
    by_cases hk : k = uid
    · simp [setSession, hk]
    · simp [lookupSession, hk] at h
      simp [setSession, hk, ih h]

theorem length_setSession_of_none (l : Registry) (uid : String) (s : UserSession)
    (h : lookupSession l uid = none) : (setSession l uid s).length = l.length + 1 := by
  induction l with
  | nil => simp [setSession]
  | cons p rest ih =>
    obtain ⟨k, s1⟩ := p
    by_cases hk : k = uid
    · simp [lookupSession, hk] at h
    · simp [lookupSession, hk] at h
      simp [setSession, hk, ih h]

theorem lookupSession_filter_of_kept (l : Registry) (uid : String) (s : UserSession)
    (f : String × UserSession → Bool) (h : lookupSession l uid = some s)
    (hf : f (uid, s) = true) : lookupSession (l.filter f) uid = some s := by
  induction l with
  | nil => simp [lookupSession] at h
  | cons p rest ih =>
    obtain ⟨k, s0⟩ := p
    by_cases hk : k = uid
    · subst hk
      simp [lookupSession] at h
      subst h
      simp [List.filter, hf, lookupSession]
    · simp [lookupSession, hk] at h
      cases hfk : f (k, s0) <;> simp [List.filter, hfk, lookupSession, hk, ih h]

theorem lookupSession_eq_none_of_keys (l : Registry) (uid : String)
    (h : uid ∉ l.map Prod.fst) : lookupSession l uid = none := by
  induction l with
  | nil => simp [lookupSession]
  | cons p rest ih =>
    obtain ⟨k, s0⟩ := p
    simp only [List.map_cons, List.mem_cons, not_or] at h
    have hk : ¬ k = uid := fun e => h.1 (Eq.symm e)
    simp [lookupSession, hk, ih h.2]

theorem lookupSession_filter_of_dropped (l : Registry) (uid : String) (s : UserSession)
    (f : String × UserSession → Bool) (hnd : (l.map Prod.fst).Nodup)
    (h : lookupSession l uid = some s) (hf : f (uid, s) = false) :
    lookupSession (l.filter f) uid = none := by
  induction l with
  | nil => simp [lookupSession] at h
  | cons p rest ih =>
    obtain ⟨k, s0⟩ := p
    simp only [List.map_cons, List.nodup_cons] at hnd
    by_cases hk : k = uid
    · subst hk
      simp [lookupSession] at h
      subst h
      simp [List.filter, hf]
      apply lookupSession_eq_none_of_keys
      intro hmem
      rcases List.mem_map.mp hmem with ⟨q, hq, hq1⟩
      apply hnd.1
      rw [← hq1]
      exact List.mem_map_of_mem Prod.fst (List.mem_filter.mp hq).1
    · simp [lookupSession, hk] at h
      cases hfk : f (k, s0) <;> simp [List.filter, hfk, lookupSession, hk, ih hnd.2 h]

/-! Characterizations of the manager methods, one per source path. -/

theorem getSession_of_lookup_some (m : UserSessionManager) (uid : String) (s : UserSession)
    (h : lookupSession m.user_sessions uid = some s) : m.getSession uid = some (m, s) := by
  simp [UserSessionManager.getSession, h]

theorem addMessage_of_live (m : UserSessionManager) (uid mid c : String) (mt : MessageType)
    (now : Int) (s : UserSession) (h : lookupSession m.user_sessions uid = some s)
    (hexp : s.isConversationExpired m.conversation_timeout now = false) :
    m.addMessage uid mid c mt now =
      ⟨true, { m with user_sessions := setSession m.user_sessions uid (s.addMessage ⟨mid, uid, c, mt, now⟩) }, none⟩ := by
  simp [UserSessionManager.addMessage, getSession_of_lookup_some m uid s h, hexp]

theorem addMessage_of_expired (m : UserSessionManager) (uid mid c : String) (mt : MessageType)
    (now : Int) (s : UserSession) (h : lookupSession m.user_sessions uid = some s)
    (hexp : s.isConversationExpired m.conversation_timeout now = true) :
    m.addMessage uid mid c mt now =
      ⟨true, { m with user_sessions := setSession m.user_sessions uid ((UserSession.fresh uid).addMessage ⟨mid, uid, c, mt, now⟩) }, some s⟩ := by
  simp [UserSessionManager.addMessage, getSession_of_lookup_some m uid s h, hexp,
        setSession_setSession_self]

theorem addMessage_capacity (m : UserSessionManager) (uid mid c : String) (mt : MessageType)
    (now : Int) (h : lookupSession m.user_sessions uid = none)
    (hcap : m.max_users ≤ m.user_sessions.length) :
    m.addMessage uid mid c mt now = ⟨false, m, none⟩ := by
  simp [UserSessionManager.addMessage, UserSessionManager.getSession, h, hcap]

theorem addMessage_create (m : UserSessionManager) (uid mid c : String) (mt : MessageType)
    (now : Int) (h : lookupSession m.user_sessions uid = none)
    (hcap : m.user_sessions.length < m.max_users) :
    m.addMessage uid mid c mt now =
      ⟨true, { m with user_sessions := setSession m.user_sessions uid ((UserSession.fresh uid).addMessage ⟨mid, uid, c, mt, now⟩) }, some (UserSession.fresh uid)⟩ := by
  have hnc : ¬ (m.user_sessions.length ≥ m.max_users) := by omega
  simp [UserSessionManager.addMessage, UserSessionManager.getSession, h, hnc,
        UserSession.isConversationExpired, UserSession.fresh, setSession_setSession_self]

theorem extract_of_ready (m : UserSessionManager) (uid : String) (now : Int) (s : UserSession)
    (h : lookupSession m.user_sessions uid = some s)
    (hb : s.shouldProcessBatch m.batch_timeout now = true) :
    m.getMessagesForProcessing uid now =
      (some s.message_queue, { m with user_sessions := setSession m.user_sessions uid { s with is_processing := true } }) := by
  simp [UserSessionManager.getMessagesForProcessing, h, hb]

theorem extract_of_not_ready (m : UserSessionManager) (uid : String) (now : Int) (s : UserSession)
    (h : lookupSession m.user_sessions uid = some s)
    (hb : s.shouldProcessBatch m.batch_timeout now = false) :
    m.getMessagesForProcessing uid now = (none, m) := by
  simp [UserSessionManager.getMessagesForProcessing, h, hb]

theorem extract_of_absent (m : UserSessionManager) (uid : String) (now : Int)
    (h : lookupSession m.user_sessions uid = none) :
    m.getMessagesForProcessing uid now = (none, m) := by
  simp [UserSessionManager.getMessagesForProcessing, h]

theorem extract_some_inv (m : UserSessionManager) (uid : String) (now : Int)
    (B : List UserMessage) (h : (m.getMessagesForProcessing uid now).1 = some B) :
    ∃ s, lookupSession m.user_sessions uid = some s ∧
      s.shouldProcessBatch m.batch_timeout now = true ∧ B = s.message_queue := by
  cases hl : lookupSession m.user_sessions uid with
  | none => rw [extract_of_absent m uid now hl] at h; exact absurd h (by simp)
  | some s =>
    cases hb : s.shouldProcessBatch m.batch_timeout now with
    | false => rw [extract_of_not_ready m uid now s hl hb] at h; exact absurd h (by simp)
    | true =>
      refine ⟨s, rfl, hb, ?_⟩
      rw [extract_of_ready m uid now s hl hb] at h
      simp at h
      exact h.symm

theorem complete_of_some (m : UserSessionManager) (uid : String) (ok : Bool) (now : Int)
    (s : UserSession) (h : lookupSession m.user_sessions uid = some s) :
    m.markProcessingComplete uid ok now =
      { m with user_sessions := setSession m.user_sessions uid (if ok then ({ s with is_processing := false }).clearQueue now else { s with is_processing := false }) } := by
  simp [UserSessionManager.markProcessingComplete, h]

theorem complete_of_none (m : UserSessionManager) (uid : String) (ok : Bool) (now : Int)
    (h : lookupSession m.user_sessions uid = none) :
    m.markProcessingComplete uid ok now = m := by
  simp [UserSessionManager.markProcessingComplete, h]

/-- Every operation leaves the configuration fields unchanged: the resulting
manager is the input manager with only user_sessions replaced. -/
theorem applyOp_manager_eq (m : UserSessionManager) (op : Op) :
    ∃ l, applyOp m op = { m with user_sessions := l } := by
  cases op with
  | add uid mid c mt now =>
    cases hl : lookupSession m.user_sessions uid with
    | some s =>
      cases hexp : s.isConversationExpired m.conversation_timeout now with
      | false =>
        refine ⟨setSession m.user_sessions uid (s.addMessage ⟨mid, uid, c, mt, now⟩), ?_⟩
        simp [applyOp, addMessage_of_live m uid mid c mt now s hl hexp]
      | true =>
        refine ⟨setSession m.user_sessions uid ((UserSession.fresh uid).addMessage ⟨mid, uid, c, mt, now⟩), ?_⟩
        simp [applyOp, addMessage_of_expired m uid mid c mt now s hl hexp]
    | none =>
      rcases le_or_lt m.max_users m.user_sessions.length with hc | hc
      · exact ⟨m.user_sessions, by simp [applyOp, addMessage_capacity m uid mid c mt now hl hc]⟩
      · refine ⟨setSession m.user_sessions uid ((UserSession.fresh uid).addMessage ⟨mid, uid, c, mt, now⟩), ?_⟩
        simp [applyOp, addMessage_create m uid mid c mt now hl hc]
  | extract uid now =>
    cases hl : lookupSession m.user_sessions uid with
    | some s =>
      cases hb : s.shouldProcessBatch m.batch_timeout now with
      | false => exact ⟨m.user_sessions, by simp [applyOp, extract_of_not_ready m uid now s hl hb]⟩
      | true =>
        refine ⟨setSession m.user_sessions uid { s with is_processing := true }, ?_⟩
        simp [applyOp, extract_of_ready m uid now s hl hb]
    | none => exact ⟨m.user_sessions, by simp [applyOp, extract_of_absent m uid now hl]⟩
  | complete uid ok now =>
    cases hl : lookupSession m.user_sessions uid with
    | some s =>
      refine ⟨setSession m.user_sessions uid (if ok then ({ s with is_processing := false }).clearQueue now else { s with is_processing := false }), ?_⟩
      simp [applyOp, complete_of_some m uid ok now s hl]
    | none => exact ⟨m.user_sessions, by simp [applyOp, complete_of_none m uid ok now hl]⟩
  | cleanup now =>
    refine ⟨m.user_sessions.filter (fun p => !(p.2.isConversationExpired m.conversation_timeout now)), ?_⟩
    simp [applyOp, UserSessionManager.cleanupExpiredSessions]

/-! Operations on one user do not disturb the session of another user, and
safe operations (no complete, no expiry replacement, no reap) keep a session
alive, only append to its queue, and never reset a set processing flag. -/

theorem addMessage_lookup_other (m : UserSessionManager) (uid uid2 mid c : String)
    (mt : MessageType) (now : Int) (h : uid ≠ uid2) :
    lookupSession ((m.addMessage uid2 mid c mt now).manager).user_sessions uid
      = lookupSession m.user_sessions uid := by
  cases hl : lookupSession m.user_sessions uid2 with
  | some s =>
    cases hexp : s.isConversationExpired m.conversation_timeout now with
    | false =>
      rw [addMessage_of_live m uid2 mid c mt now s hl hexp]
      exact lookupSession_setSession_other _ _ _ _ h
    | true =>
      rw [addMessage_of_expired m uid2 mid c mt now s hl hexp]
      exact lookupSession_setSession_other _ _ _ _ h
  | none =>
    rcases le_or_lt m.max_users m.user_sessions.length with hc | hc
    · rw [addMessage_capacity m uid2 mid c mt now hl hc]
    · rw [addMessage_create m uid2 mid c mt now hl hc]
      exact lookupSession_setSession_other _ _ _ _ h

theorem extract_lookup_other (m : UserSessionManager) (uid uid2 : String) (now : Int)
    (h : uid ≠ uid2) :
    lookupSession ((m.getMessagesForProcessing uid2 now).2).user_sessions uid
      = lookupSession m.user_sessions uid := by
  cases hl : lookupSession m.user_sessions uid2 with
  | none => rw [extract_of_absent m uid2 now hl]
  | some s =>
    cases hb : s.shouldProcessBatch m.batch_timeout now with
    | false => rw [extract_of_not_ready m uid2 now s hl hb]
    | true =>
      rw [extract_of_ready m uid2 now s hl hb]
      exact lookupSession_setSession_other _ _ _ _ h

theorem complete_lookup_other (m : UserSessionManager) (uid uid2 : String) (ok : Bool)
    (now : Int) (h : uid ≠ uid2) :
    lookupSession (m.markProcessingComplete uid2 ok now).user_sessions uid
      = lookupSession m.user_sessions uid := by
  cases hl : lookupSession m.user_sessions uid2 with
  | none => rw [complete_of_none m uid2 ok now hl]
  | some s =>
    rw [complete_of_some m uid2 ok now s hl]
    exact lookupSession_setSession_other _ _ _ _ h

theorem shouldProcessBatch_of_processing (s : UserSession) (bt now : Int)
    (h : s.is_processing = true) : s.shouldProcessBatch bt now = false := by
  simp [UserSession.shouldProcessBatch, h]

theorem safe_op_session (uid : String) (m : UserSessionManager) (s : UserSession) (op : Op)
    (h : lookupSession m.user_sessions uid = some s) (hop : opSafeFor uid m op = true) :
    ∃ s2 extra, lookupSession (applyOp m op).user_sessions uid = some s2 ∧
      s2.message_queue = s.message_queue ++ extra ∧
      (s.is_processing = true → s2.is_processing = true) := by
  cases op with
  | add uid2 mid c mt now =>
    by_cases he : uid2 = uid
    · subst he
      have hop2 : s.isConversationExpired m.conversation_timeout now = false := by
        simpa [opSafeFor, h] using hop
      refine ⟨s.addMessage ⟨mid, uid2, c, mt, now⟩, [⟨mid, uid2, c, mt, now⟩], ?_, ?_, ?_⟩
      · simp [applyOp, addMessage_of_live m uid2 mid c mt now s h hop2,
              lookupSession_setSession_self]
      · simp [UserSession.addMessage]
      · intro hp
        simpa [UserSession.addMessage] using hp
    · refine ⟨s, [], ?_, by simp, fun hp => hp⟩
      have := addMessage_lookup_other m uid uid2 mid c mt now (fun e => he (Eq.symm e))
      simp only [applyOp]
      rw [this, h]
  | extract uid2 now =>
    by_cases he : uid2 = uid
    · subst he
      cases hb : s.shouldProcessBatch m.batch_timeout now with
      | false =>
        refine ⟨s, [], ?_, by simp, fun hp => hp⟩
        simp [applyOp, extract_of_not_ready m uid2 now s h hb, h]
      | true =>
        refine ⟨{ s with is_processing := true }, [], ?_, by simp, fun _ => rfl⟩
        simp [applyOp, extract_of_ready m uid2 now s h hb, lookupSession_setSession_self]
    · refine ⟨s, [], ?_, by simp, fun hp => hp⟩
      have := extract_lookup_other m uid uid2 now (fun e => he (Eq.symm e))
      simp only [applyOp]
      rw [this, h]
  | complete uid2 ok now =>
    simp only [opSafeFor, bne_iff_ne, ne_eq] at hop
    refine ⟨s, [], ?_, by simp, fun hp => hp⟩
    have := complete_lookup_other m uid uid2 ok now (fun e => hop (Eq.symm e))
    simp only [applyOp]
    rw [this, h]
  | cleanup now =>
    have hop2 : s.isConversationExpired m.conversation_timeout now = false := by
      simpa [opSafeFor, h] using hop
    refine ⟨s, [], ?_, by simp, fun hp => hp⟩
    simp only [applyOp, UserSessionManager.cleanupExpiredSessions]
    exact lookupSession_filter_of_kept _ _ _ _ h (by simp [hop2])

theorem safe_ops_session (uid : String) (m : UserSessionManager) (s : UserSession)
    (ops : List Op) (h : lookupSession m.user_sessions uid = some s)
    (hsafe : safeOps uid m ops = true) :
    ∃ s2 extra, lookupSession (applyOps m ops).user_sessions uid = some s2 ∧
      s2.message_queue = s.message_queue ++ extra ∧
      (s.is_processing = true → s2.is_processing = true) := by
  induction ops generalizing m s with
  | nil => exact ⟨s, [], by simpa [applyOps] using h, by simp, fun hp => hp⟩
  | cons op rest ih =>
    simp only [safeOps, Bool.and_eq_true] at hsafe
    rcases safe_op_session uid m s op h hsafe.1 with ⟨s1, e1, h1, hq1, hp1⟩
    rcases ih (applyOp m op) s1 h1 hsafe.2 with ⟨s2, e2, h2, hq2, hp2⟩
    refine ⟨s2, e1 ++ e2, by simpa [applyOps] using h2, ?_, fun hp => hp2 (hp1 hp)⟩
    rw [hq2, hq1, List.append_assoc]

/-! A run of enqueues into one session. -/

/-- State of a session after the messages of a burst have been enqueued in
arrival order. -/
def enqueueAll (s : UserSession) (msgs : List UserMessage) : UserSession :=
  msgs.foldl UserSession.addMessage s

theorem enqueueAll_queue (s : UserSession) (msgs : List UserMessage) :
    (enqueueAll s msgs).message_queue = s.message_queue ++ msgs := by
  induction msgs generalizing s with
  | nil => simp [enqueueAll]
  | cons mh rest ih =>
    have : enqueueAll s (mh :: rest) = enqueueAll (s.addMessage mh) rest := rfl
    rw [this, ih]
    simp [UserSession.addMessage]

theorem enqueueAll_processing (s : UserSession) (msgs : List UserMessage) :
    (enqueueAll s msgs).is_processing = s.is_processing := by
  induction msgs generalizing s with
  | nil => simp [enqueueAll]
  | cons mh rest ih =>
    have : enqueueAll s (mh :: rest) = enqueueAll (s.addMessage mh) rest := rfl
    rw [this, ih]
    simp [UserSession.addMessage]

theorem enqueueAll_last (s : UserSession) (msgs : List UserMessage) (mlast : UserMessage)
    (hlast : msgs.getLast? = some mlast) :
    (enqueueAll s msgs).last_message_time = some mlast.timestamp := by
  induction msgs generalizing s with
  | nil => simp at hlast
  | cons mh rest ih =>
    have he : enqueueAll s (mh :: rest) = enqueueAll (s.addMessage mh) rest := rfl
    cases rest with
    | nil =>
      simp at hlast
      subst hlast
      simp [enqueueAll, UserSession.addMessage]
    | cons m2 rest2 =>
      rw [he, ih (s.addMessage mh) (by simpa [List.getLast?_cons_cons] using hlast)]

/-- should_process_batch on a freshly built burst session: decided purely by
the elapsed time since the final message. -/
theorem enqueueAll_fresh_should (uid : String) (bt now : Int) (msgs : List UserMessage)
    (mlast : UserMessage) (hlast : msgs.getLast? = some mlast) :
    (enqueueAll (UserSession.fresh uid) msgs).shouldProcessBatch bt now =
      decide (bt ≤ now - mlast.timestamp) := by
  have hne : msgs ≠ [] := by
    intro e
    rw [e] at hlast
    simp at hlast
  have hq : (enqueueAll (UserSession.fresh uid) msgs).message_queue = msgs := by
    simpa [UserSession.fresh] using enqueueAll_queue (UserSession.fresh uid) msgs
  have hp : (enqueueAll (UserSession.fresh uid) msgs).is_processing = false := by
    simpa [UserSession.fresh] using enqueueAll_processing (UserSession.fresh uid) msgs
  rw [UserSession.shouldProcessBatch, hq, hp,
      enqueueAll_last (UserSession.fresh uid) msgs mlast hlast]
  simp [List.isEmpty_iff, hne]

/-! The merge of a batch into one turn (C9 machinery). -/

theorem joinWith_merge (msgs : List UserMessage) :
    joinWith "\n" (mergedLines msgs) = joinWith ("\n" ++ "<SEGMENTATION>" ++ "\n") (msgs.map messageLine) := by
  induction msgs with
  | nil => simp [mergedLines, joinWith]
  | cons mh rest ih =>
    cases rest with
    | nil => simp [mergedLines, joinWith]
    | cons m2 rest2 =>
      have h1 : mergedLines (mh :: m2 :: rest2)
          = messageLine mh :: "<SEGMENTATION>" :: mergedLines (m2 :: rest2) := rfl
      have h2 : mergedLines (m2 :: rest2) ≠ [] := by
        cases rest2 <;> simp [mergedLines]
      rw [h1]
      cases hml : mergedLines (m2 :: rest2) with
      | nil => exact absurd hml h2
      | cons lh lrest =>
        have h3 : joinWith "\n" (messageLine mh :: "<SEGMENTATION>" :: lh :: lrest)
            = messageLine mh ++ "\n" ++ ("<SEGMENTATION>" ++ "\n" ++ joinWith "\n" (lh :: lrest)) := rfl
        have h4 : joinWith ("\n" ++ "<SEGMENTATION>" ++ "\n") (List.map messageLine (mh :: m2 :: rest2))
            = messageLine mh ++ ("\n" ++ "<SEGMENTATION>" ++ "\n")
              ++ joinWith ("\n" ++ "<SEGMENTATION>" ++ "\n") (List.map messageLine (m2 :: rest2)) := rfl
        rw [h3, ← hml, ih, h4]
        simp only [String.append_assoc]

/-! Two more session-level inversion lemmas. -/

theorem shouldProcessBatch_iff (s : UserSession) (bt now : Int) :
    s.shouldProcessBatch bt now = true ↔
      s.message_queue ≠ [] ∧ s.is_processing = false ∧
        ∃ t, s.last_message_time = some t ∧ bt ≤ now - t := by
  cases hq : s.message_queue.isEmpty with
  | true =>
    simp [UserSession.shouldProcessBatch, hq]
    intro he
    simp [List.isEmpty_iff] at hq
    exact absurd hq he
  | false =>
    cases hp : s.is_processing with
    | true => simp [UserSession.shouldProcessBatch, hq, hp]
    | false =>
      cases hl : s.last_message_time with
      | none => simp [UserSession.shouldProcessBatch, hq, hp, hl]
      | some t =>
        simp [UserSession.shouldProcessBatch, hq, hp, hl]
        intro ht
        simpa [List.isEmpty_iff] using hq

theorem setSession_lookup_id (l : Registry) (uid : String) (s : UserSession)
    (h : lookupSession l uid = some s) : setSession l uid s = l := by
  induction l with
  | nil => simp [lookupSession] at h
  | cons p rest ih =>
    obtain ⟨k, s0⟩ := p
    by_cases hk : k = uid
    · subst hk
      simp [lookupSession] at h
      simp [setSession, h]
    · simp [lookupSession, hk] at h
      simp [setSession, hk, ih h]

theorem isConversationExpired_of_stale (s : UserSession) (ct now t : Int)
    (hlast : s.last_message_time = some t) (hold : ct ≤ now - t) :
    s.isConversationExpired ct now = true := by
  cases hs : s.conversation_start_time with
  | none => simp [UserSession.isConversationExpired, hs]
  | some a =>
    cases he : s.conversation_end_time with
    | some b => simp [UserSession.isConversationExpired, hs, he]
    | none => simp [UserSession.isConversationExpired, hs, he, hlast, hold]

/-! The claims. -/

/-- C8: is_conversation_expired returns true if and only if
conversation_start_time is unset, or conversation_end_time is set, or the
elapsed time since last_message_time (or, when no message time exists, since
conversation_start_time) is at least conversation_timeout. -/
theorem C8_conversation_expiry (s : UserSession) (ct now : Int) :
    s.isConversationExpired ct now = true ↔
      (s.conversation_start_time = none ∨ s.conversation_end_time ≠ none ∨
        ∃ t, (match s.last_message_time with
              | some x => some x
              | none => s.conversation_start_time) = some t ∧ ct ≤ now - t) := by
  rcases s with ⟨u, q, lmt, lpt, ip, cst, cet⟩
  cases cst <;> cases cet <;> cases lmt <;>
    simp [UserSession.isConversationExpired]

/-- C9: for every non-empty batch, the merged turn produced by
_merge_messages is exactly the spec merge policy: each message content in
arrival order prefixed by its local time of day, with the segmentation
marker between consecutive messages and no marker after the final one. -/
theorem C9_merge_policy (msgs : List UserMessage) (hne : msgs ≠ []) :
    mergeMessages msgs = specMergedTurn msgs := by
  have hsep : ("\n" : String) ++ "<SEGMENTATION>" ++ "\n" = "\n<SEGMENTATION>\n" := by decide
  rw [mergeMessages, specMergedTurn, ← hsep, joinWith_merge]

theorem C9_witness :
    ([(⟨"a", "u", "hi", MessageType.text, 3600⟩ : UserMessage)] ≠ []) ∧
    mergeMessages [⟨"a", "u", "hi", MessageType.text, 3600⟩]
      = specMergedTurn [⟨"a", "u", "hi", MessageType.text, 3600⟩] :=
  ⟨by decide, C9_merge_policy [⟨"a", "u", "hi", MessageType.text, 3600⟩] (by decide)⟩

/-- C5 (code bug): with two segments where the first send succeeds and the
second fails, send_messages reports overall failure (returns false) even
though one segment was sent successfully, because the return expression of
the partial-failure branch (fail_count == 0) is always False there — against
the claim and the comment in the source beside that return. -/
theorem C5_partial_delivery_eval :
    sendMessages ["a", "b"] (fun i => i == 0) = false ∧
    successCount ["a", "b"] (fun i => i == 0) = 1 := by
  exact ⟨by decide, by decide⟩

/-- C4 (counterexample): the pipeline does not special-case the silent
sentinel: the reserved sentinel reply [SILENT] is parsed into one segment
which is delivered, and a reply with no content (None or the empty string)
is reported as a failed completion, not a successful one. -/
theorem C4_silent_counterexample :
    processOutcome true (some "[SILENT]") = ⟨["[SILENT]"], true, true⟩ ∧
    (processOutcome true (some "")).completeSuccess = false ∧
    (processOutcome true none).completeSuccess = false := by
  refine ⟨by decide, by decide, by decide⟩

/-- C4 (amended): a non-empty model reply that parses to zero segments
produces no segments and no delivery and is still reported as a successful
completion (complete success=true); an absent or empty reply is instead
reported as a failed completion. -/
theorem C4_zero_segment_reply (c : String) (hc : c ≠ "") (hseg : parseSegmentation c = []) :
    processOutcome true (some c) = ⟨[], false, true⟩ ∧
    processOutcome true (some "") = ⟨[], false, false⟩ ∧
    processOutcome true none = ⟨[], false, false⟩ := by
  refine ⟨?_, by decide, by decide⟩
  simp [processOutcome, handleLLMResponse, hseg, hc]

theorem C4_zero_segment_reply_witness :
    processOutcome true (some " ") = ⟨[], false, true⟩ :=
  (C4_zero_segment_reply " " (by decide) (by decide)).1

/-- C7: when add_message finds the existing session conversation-expired, the
old session is persisted first and replaced by a fresh session; the call
reports success, the registry afterwards maps the user to a new session whose
queue holds exactly the newly submitted message, and every other entry of the
registry is untouched. -/
theorem C7_expired_replacement (m : UserSessionManager) (uid mid c : String)
    (mt : MessageType) (now : Int) (s : UserSession)
    (h : lookupSession m.user_sessions uid = some s)
    (hexp : s.isConversationExpired m.conversation_timeout now = true) :
    (m.addMessage uid mid c mt now).ok = true ∧
    (m.addMessage uid mid c mt now).persisted = some s ∧
    (∃ s2, lookupSession (m.addMessage uid mid c mt now).manager.user_sessions uid = some s2 ∧
      s2.message_queue = [⟨mid, uid, c, mt, now⟩] ∧ s2.is_processing = false) ∧
    (∀ k, k ≠ uid → lookupSession (m.addMessage uid mid c mt now).manager.user_sessions k
        = lookupSession m.user_sessions k) := by
  rw [addMessage_of_expired m uid mid c mt now s h hexp]
  refine ⟨rfl, rfl, ⟨(UserSession.fresh uid).addMessage ⟨mid, uid, c, mt, now⟩, ?_, ?_, ?_⟩, ?_⟩
  · exact lookupSession_setSession_self _ _ _
  · simp [UserSession.addMessage, UserSession.fresh]
  · simp [UserSession.addMessage, UserSession.fresh]
  · intro k hk
    exact lookupSession_setSession_other _ _ _ _ hk

theorem C7_witness :
    (lookupSession [("u", (⟨"u", [⟨"m1", "u", "hi", MessageType.text, 0⟩], some 0, none, false, some 0, none⟩ : UserSession))] "u"
       = some ⟨"u", [⟨"m1", "u", "hi", MessageType.text, 0⟩], some 0, none, false, some 0, none⟩) ∧
    ((UserSessionManager.mk 10 40 3600 [("u", ⟨"u", [⟨"m1", "u", "hi", MessageType.text, 0⟩], some 0, none, false, some 0, none⟩)]).addMessage "u" "m2" "yo" MessageType.text 3600).ok = true :=
  ⟨by decide,
   (C7_expired_replacement (UserSessionManager.mk 10 40 3600 [("u", ⟨"u", [⟨"m1", "u", "hi", MessageType.text, 0⟩], some 0, none, false, some 0, none⟩)])
     "u" "m2" "yo" MessageType.text 3600
     ⟨"u", [⟨"m1", "u", "hi", MessageType.text, 0⟩], some 0, none, false, some 0, none⟩
     (by decide) (by decide)).1⟩

/-- C10: the expiry reap removes every session whose last activity is at
least conversation_timeout old, regardless of its is_processing flag; after
the reap, mark_processing_complete for that user returns the state unchanged
and no messages can be extracted for that user any more. -/
theorem C10_reap_in_flight (m : UserSessionManager) (uid : String) (s : UserSession)
    (t now : Int) (hnd : (m.user_sessions.map Prod.fst).Nodup)
    (h : lookupSession m.user_sessions uid = some s)
    (hlast : s.last_message_time = some t)
    (hold : m.conversation_timeout ≤ now - t) :
    lookupSession (m.cleanupExpiredSessions now).1.user_sessions uid = none ∧
    (∀ ok now2, (m.cleanupExpiredSessions now).1.markProcessingComplete uid ok now2
        = (m.cleanupExpiredSessions now).1) ∧
    (∀ now3, ((m.cleanupExpiredSessions now).1.getMessagesForProcessing uid now3).1 = none) := by
  have hexp : s.isConversationExpired m.conversation_timeout now = true :=
    isConversationExpired_of_stale s m.conversation_timeout now t hlast hold
  have hgone : lookupSession (m.cleanupExpiredSessions now).1.user_sessions uid = none := by
    simp only [UserSessionManager.cleanupExpiredSessions]
    exact lookupSession_filter_of_dropped _ _ s _ hnd h (by simp [hexp])
  refine ⟨hgone, ?_, ?_⟩
  · intro ok now2
    exact complete_of_none _ uid ok now2 hgone
  · intro now3
    rw [extract_of_absent _ uid now3 hgone]

theorem C10_witness :
    lookupSession ((UserSessionManager.mk 10 40 3600 [("u", (⟨"u", [⟨"m1", "u", "hi", MessageType.text, 0⟩], some 0, none, true, some 0, none⟩ : UserSession))]).cleanupExpiredSessions 3600).1.user_sessions "u" = none :=
  (C10_reap_in_flight (UserSessionManager.mk 10 40 3600 [("u", ⟨"u", [⟨"m1", "u", "hi", MessageType.text, 0⟩], some 0, none, true, some 0, none⟩)])
    "u" ⟨"u", [⟨"m1", "u", "hi", MessageType.text, 0⟩], some 0, none, true, some 0, none⟩
    0 3600 (by decide) (by decide) (by decide) (by decide)).1

theorem applyOp_length (m : UserSessionManager) (op : Op)
    (hlen : m.user_sessions.length ≤ m.max_users) :
    (applyOp m op).user_sessions.length ≤ m.max_users := by
  cases op with
  | add uid mid c mt now =>
    cases hl : lookupSession m.user_sessions uid with
    | some s =>
      cases hexp : s.isConversationExpired m.conversation_timeout now with
      | false =>
        simp only [applyOp, addMessage_of_live m uid mid c mt now s hl hexp]
        rw [length_setSession_of_some m.user_sessions uid _ s hl]
        exact hlen
      | true =>
        simp only [applyOp, addMessage_of_expired m uid mid c mt now s hl hexp]
        rw [length_setSession_of_some m.user_sessions uid _ s hl]
        exact hlen
    | none =>
      rcases le_or_lt m.max_users m.user_sessions.length with hc | hc
      · simp only [applyOp, addMessage_capacity m uid mid c mt now hl hc]
        exact hlen
      · simp only [applyOp, addMessage_create m uid mid c mt now hl hc]
        rw [length_setSession_of_none m.user_sessions uid _ hl]
        omega
  | extract uid now =>
    cases hl : lookupSession m.user_sessions uid with
    | some s =>
      cases hb : s.shouldProcessBatch m.batch_timeout now with
      | false =>
        simp only [applyOp, extract_of_not_ready m uid now s hl hb]
        exact hlen
      | true =>
        simp only [applyOp, extract_of_ready m uid now s hl hb]
        rw [length_setSession_of_some m.user_sessions uid _ s hl]
        exact hlen
    | none =>
      simp only [applyOp, extract_of_absent m uid now hl]
      exact hlen
  | complete uid ok now =>
    cases hl : lookupSession m.user_sessions uid with
    | some s =>
      simp only [applyOp, complete_of_some m uid ok now s hl]
      rw [length_setSession_of_some m.user_sessions uid _ s hl]
      exact hlen
    | none =>
      simp only [applyOp, complete_of_none m uid ok now hl]
      exact hlen
  | cleanup now =>
    simp only [applyOp, UserSessionManager.cleanupExpiredSessions]
    exact le_trans (List.length_filter_le _ _) hlen

theorem applyOps_length (m : UserSessionManager) (ops : List Op)
    (hlen : m.user_sessions.length ≤ m.max_users) :
    (applyOps m ops).user_sessions.length ≤ m.max_users := by
  induction ops generalizing m with
  | nil => simpa [applyOps] using hlen
  | cons op rest ih =>
    rcases applyOp_manager_eq m op with ⟨l, hl⟩
    have h1 := applyOp_length m op hlen
    have h2 : (applyOp m op).user_sessions.length ≤ (applyOp m op).max_users := by
      rw [hl]
      rw [hl] at h1
      simpa using h1
    have h3 := ih (applyOp m op) h2
    have hmax : (applyOp m op).max_users = m.max_users := by rw [hl]
    have : applyOps m (op :: rest) = applyOps (applyOp m op) rest := rfl
    rw [this]
    rw [hmax] at h3
    exact h3

/-- C6: the registry never exceeds max_users sessions (every sequence of
operations preserves the bound), and an add_message for an unknown user when
the registry is at capacity fails all-or-nothing: it returns False and the
whole manager state (registry mapping and every session) is unchanged, with
nothing persisted. -/
theorem C6_capacity_bound (m : UserSessionManager)
    (hlen : m.user_sessions.length ≤ m.max_users) :
    (∀ ops, (applyOps m ops).user_sessions.length ≤ m.max_users) ∧
    (∀ uid mid c mt now, lookupSession m.user_sessions uid = none →
      m.max_users ≤ m.user_sessions.length →
      m.addMessage uid mid c mt now = ⟨false, m, none⟩) := by
  refine ⟨fun ops => applyOps_length m ops hlen, ?_⟩
  intro uid mid c mt now hl hc
  exact addMessage_capacity m uid mid c mt now hl hc

theorem C6_witness :
    ((UserSessionManager.mk 1 40 3600 [("a", UserSession.fresh "a")]).addMessage "b" "m1" "hi" MessageType.text 0
      = ⟨false, UserSessionManager.mk 1 40 3600 [("a", UserSession.fresh "a")], none⟩) :=
  (C6_capacity_bound (UserSessionManager.mk 1 40 3600 [("a", UserSession.fresh "a")]) (by decide)).2
    "b" "m1" "hi" MessageType.text 0 (by decide) (by decide)

/-- C3: should_process_batch holds iff the queue is non-empty, the session is
not processing, and at least batch_timeout has elapsed since the last
message; for a burst of messages (strictly increasing timestamps, gaps
smaller than batch_timeout), the session is not ready at any moment of the
run — neither while a later message of the burst is still to arrive nor
within batch_timeout of the final arrival — becomes ready exactly from
batch_timeout after the final arrival, and extraction then yields all
messages in arrival order. -/
theorem C3_batching_delay (bt : Int) (uid : String) (msgs : List UserMessage)
    (mlast : UserMessage) (hlast : msgs.getLast? = some mlast)
    (hchain : List.Chain' (fun a b => a.timestamp < b.timestamp ∧ b.timestamp - a.timestamp < bt) msgs) :
    (∀ (s : UserSession) (t now : Int), s.last_message_time = some t →
      (s.shouldProcessBatch bt now = true ↔
        (s.message_queue ≠ [] ∧ s.is_processing = false ∧ bt ≤ now - t))) ∧
    (∀ now : Int, (enqueueAll (UserSession.fresh uid) msgs).shouldProcessBatch bt now = true ↔
        mlast.timestamp + bt ≤ now) ∧
    (∀ p q qh (now : Int), msgs = p ++ q → p ≠ [] → q.head? = some qh →
      now < qh.timestamp →
      (enqueueAll (UserSession.fresh uid) p).shouldProcessBatch bt now = false) ∧
    (∀ now : Int, now < mlast.timestamp + bt →
      (enqueueAll (UserSession.fresh uid) msgs).shouldProcessBatch bt now = false) ∧
    (∀ (mu : Nat) (ct now : Int), mlast.timestamp + bt ≤ now →
      ((UserSessionManager.mk mu bt ct
          [(uid, enqueueAll (UserSession.fresh uid) msgs)]).getMessagesForProcessing uid now).1
        = some msgs) := by
  refine ⟨?_, ?_, ?_, ?_, ?_⟩
  · intro s t now hl
    rw [shouldProcessBatch_iff]
    simp [hl]
  · intro now
    rw [enqueueAll_fresh_should uid bt now msgs mlast hlast]
    simp only [decide_eq_true_eq]
    omega
  · intro p q qh now hsplit hp hq hnow
    obtain ⟨pl, hpl⟩ := Option.isSome_iff_exists.mp (List.getLast?_isSome.mpr hp)
    rw [hsplit] at hchain
    rcases List.chain'_append.mp hchain with ⟨_, _, hrel⟩
    have hgap := hrel pl (by simp [hpl]) qh (by simp [hq])
    rw [enqueueAll_fresh_should uid bt now p pl hpl]
    simp only [decide_eq_false_iff_not, not_le]
    omega
  · intro now hlt
    rw [enqueueAll_fresh_should uid bt now msgs mlast hlast]
    simp only [decide_eq_false_iff_not, not_le]
    omega
  · intro mu ct now hge
    have hlook : lookupSession [(uid, enqueueAll (UserSession.fresh uid) msgs)] uid
        = some (enqueueAll (UserSession.fresh uid) msgs) := by
      simp [lookupSession]
    have hb : (enqueueAll (UserSession.fresh uid) msgs).shouldProcessBatch bt now = true := by
      rw [enqueueAll_fresh_should uid bt now msgs mlast hlast]
      simp only [decide_eq_true_eq]
      omega
    rw [extract_of_ready (UserSessionManager.mk mu bt ct
          [(uid, enqueueAll (UserSession.fresh uid) msgs)]) uid now
          (enqueueAll (UserSession.fresh uid) msgs) hlook hb]
    show some (enqueueAll (UserSession.fresh uid) msgs).message_queue = some msgs
    rw [enqueueAll_queue (UserSession.fresh uid) msgs]
    simp [UserSession.fresh]

theorem C3_witness :
    ((enqueueAll (UserSession.fresh "u")
        [⟨"m1", "u", "hi", MessageType.text, 0⟩, ⟨"m2", "u", "yo", MessageType.text, 10⟩]).shouldProcessBatch 40 50 = true
      ↔ (10 : Int) + 40 ≤ 50) :=
  (C3_batching_delay 40 "u"
    [⟨"m1", "u", "hi", MessageType.text, 0⟩, ⟨"m2", "u", "yo", MessageType.text, 10⟩]
    ⟨"m2", "u", "yo", MessageType.text, 10⟩ (by decide)
    (by
      refine List.chain'_cons.mpr ⟨⟨by decide, by decide⟩, ?_⟩
      exact List.chain'_singleton _)).2.1 50

/-- C2 (counterexample to the claim as stated over all interleavings): with
the default configuration (batch_timeout 40, conversation_timeout 3600,
max_users 10), extract a batch for user u at t=40, never call
mark_processing_complete, let the conversation expire, and enqueue a new
message at t=3700 (which replaces the session with a fresh one): a second
extract at t=3740 returns a batch, not none. -/
theorem C2_counterexample :
    ((((UserSessionManager.mk 10 40 3600 []).addMessage "u" "m1" "hi" MessageType.text 0).manager.getMessagesForProcessing "u" 40).1
      = some [⟨"m1", "u", "hi", MessageType.text, 0⟩]) ∧
    ((((((UserSessionManager.mk 10 40 3600 []).addMessage "u" "m1" "hi" MessageType.text 0).manager.getMessagesForProcessing "u" 40).2.addMessage "u" "m2" "again" MessageType.text 3700).manager.getMessagesForProcessing "u" 3740).1
      = some [⟨"m2", "u", "again", MessageType.text, 3700⟩]) := by
  exact ⟨by decide, by decide⟩

/-- C2 (amended): once a batch has been extracted for a user and
mark_processing_complete has not yet been called for that user, any second
extract for that user returns none, even with a non-empty queue and an
elapsed quiet period — provided the operations in between do not replace the
session via an add_message on the expired conversation and do not reap it
via a cleanup while expired.  The extract sets the processing flag, and new
messages may still be enqueued while it is set. -/
theorem C2_no_double_extract (m : UserSessionManager) (uid : String) (now : Int)
    (B : List UserMessage) (ops : List Op)
    (hx : (m.getMessagesForProcessing uid now).1 = some B)
    (hsafe : safeOps uid (m.getMessagesForProcessing uid now).2 ops = true) :
    (∃ s1, lookupSession ((m.getMessagesForProcessing uid now).2).user_sessions uid = some s1 ∧
       s1.is_processing = true) ∧
    (∀ now2, ((applyOps ((m.getMessagesForProcessing uid now).2) ops).getMessagesForProcessing uid now2).1 = none) ∧
    (∀ mid c mt now3 s1,
       lookupSession ((m.getMessagesForProcessing uid now).2).user_sessions uid = some s1 →
       s1.isConversationExpired m.conversation_timeout now3 = false →
       (((m.getMessagesForProcessing uid now).2).addMessage uid mid c mt now3).ok = true ∧
       ∃ s2, lookupSession ((((m.getMessagesForProcessing uid now).2).addMessage uid mid c mt now3).manager.user_sessions) uid = some s2 ∧
         s2.message_queue = s1.message_queue ++ [⟨mid, uid, c, mt, now3⟩] ∧
         s2.is_processing = s1.is_processing) := by
  rcases extract_some_inv m uid now B hx with ⟨s, hl, hb, _⟩
  have hm1 : (m.getMessagesForProcessing uid now).2
      = { m with user_sessions := setSession m.user_sessions uid { s with is_processing := true } } := by
    rw [extract_of_ready m uid now s hl hb]
  have hl1 : lookupSession ((m.getMessagesForProcessing uid now).2).user_sessions uid
      = some { s with is_processing := true } := by
    rw [hm1]
    exact lookupSession_setSession_self _ _ _
  refine ⟨⟨{ s with is_processing := true }, hl1, rfl⟩, ?_, ?_⟩
  · intro now2
    rcases safe_ops_session uid _ _ ops hl1 hsafe with ⟨s2, e2, h2, _, hp2⟩
    have hp2t : s2.is_processing = true := hp2 rfl
    rw [extract_of_not_ready _ uid now2 s2 h2 (shouldProcessBatch_of_processing s2 _ now2 hp2t)]
  · intro mid c mt now3 s1 hls1 hexp
    have hexp1 : s1.isConversationExpired ((m.getMessagesForProcessing uid now).2).conversation_timeout now3 = false := by
      rw [hm1]
      exact hexp
    rw [addMessage_of_live _ uid mid c mt now3 s1 hls1 hexp1]
    refine ⟨rfl, s1.addMessage ⟨mid, uid, c, mt, now3⟩, lookupSession_setSession_self _ _ _, ?_, ?_⟩
    · simp [UserSession.addMessage]
    · simp [UserSession.addMessage]

theorem C2_witness :
    ∃ s1, lookupSession ((UserSessionManager.mk 10 40 3600
        [("u", ⟨"u", [⟨"m1", "u", "hi", MessageType.text, 0⟩], some 0, none, false, some 0, none⟩)]).getMessagesForProcessing "u" 40).2.user_sessions "u"
      = some s1 ∧ s1.is_processing = true :=
  (C2_no_double_extract (UserSessionManager.mk 10 40 3600
      [("u", ⟨"u", [⟨"m1", "u", "hi", MessageType.text, 0⟩], some 0, none, false, some 0, none⟩)])
    "u" 40 [⟨"m1", "u", "hi", MessageType.text, 0⟩] [] (by decide) (by rfl)).1

/-- C1 (counterexample to the claim as stated): after extract and a failed
completion, an add_message on the by-then expired conversation replaces the
session, so a later extract yields a batch that does not contain the
previously extracted message — the retained queue was discarded without any
successful completion. -/
theorem C1_counterexample :
    ((((UserSessionManager.mk 10 40 3600 []).addMessage "u" "m1" "hi" MessageType.text 0).manager.getMessagesForProcessing "u" 40).1
      = some [⟨"m1", "u", "hi", MessageType.text, 0⟩]) ∧
    (((((((UserSessionManager.mk 10 40 3600 []).addMessage "u" "m1" "hi" MessageType.text 0).manager.getMessagesForProcessing "u" 40).2.markProcessingComplete "u" false 41).addMessage "u" "m2" "again" MessageType.text 3700).manager.getMessagesForProcessing "u" 3740).1
      = some [⟨"m2", "u", "again", MessageType.text, 3700⟩]) ∧
    ¬ ((⟨"m1", "u", "hi", MessageType.text, 0⟩ : UserMessage)
        ∈ [(⟨"m2", "u", "again", MessageType.text, 3700⟩ : UserMessage)]) := by
  exact ⟨by decide, by decide, by decide⟩

/-- C1 (amended): extract returns a copy of the queue and removes no message
(only the processing flag changes); complete(success=false) restores the
manager exactly to its pre-extract state, the queue in particular;
complete(success=true) empties the queue; and after a failed completion, any
later extract that yields a batch — with no expiry replacement and no reap
of that session in between — yields a batch that extends the previously
extracted batch as a prefix. -/
theorem C1_queue_cleared_only_on_success (m : UserSessionManager) (uid : String) (now : Int)
    (B : List UserMessage)
    (hx : (m.getMessagesForProcessing uid now).1 = some B) :
    ∃ s, lookupSession m.user_sessions uid = some s ∧ B = s.message_queue ∧
      lookupSession ((m.getMessagesForProcessing uid now).2).user_sessions uid
        = some { s with is_processing := true } ∧
      (∀ now2, ((m.getMessagesForProcessing uid now).2).markProcessingComplete uid false now2 = m) ∧
      (∀ now2, ∃ s3,
        lookupSession (((m.getMessagesForProcessing uid now).2).markProcessingComplete uid true now2).user_sessions uid
          = some s3 ∧ s3.message_queue = []) ∧
      (∀ now2 ops now3 B2,
        safeOps uid (((m.getMessagesForProcessing uid now).2).markProcessingComplete uid false now2) ops = true →
        ((applyOps (((m.getMessagesForProcessing uid now).2).markProcessingComplete uid false now2) ops).getMessagesForProcessing uid now3).1 = some B2 →
        ∃ extra, B2 = B ++ extra) := by
  rcases extract_some_inv m uid now B hx with ⟨s, hl, hb, hB⟩
  have hproc0 : s.is_processing = false := ((shouldProcessBatch_iff s m.batch_timeout now).mp hb).2.1
  have hm1 : (m.getMessagesForProcessing uid now).2
      = { m with user_sessions := setSession m.user_sessions uid { s with is_processing := true } } := by
    rw [extract_of_ready m uid now s hl hb]
  have hl1 : lookupSession ((m.getMessagesForProcessing uid now).2).user_sessions uid
      = some { s with is_processing := true } := by
    rw [hm1]
    exact lookupSession_setSession_self _ _ _
  have hss : ({ { s with is_processing := true } with is_processing := false } : UserSession) = s := by
    obtain ⟨a, b, c2, d, e, f, g⟩ := s
    simp at hproc0
    simp [hproc0]
  have hrestore : ∀ now2, ((m.getMessagesForProcessing uid now).2).markProcessingComplete uid false now2 = m := by
    intro now2
    rw [complete_of_some ((m.getMessagesForProcessing uid now).2) uid false now2 _ hl1, hm1]
    simp only [Bool.false_eq_true, if_false, setSession_setSession_self, hss,
               setSession_lookup_id m.user_sessions uid s hl]
  refine ⟨s, hl, hB, hl1, hrestore, ?_, ?_⟩
  · intro now2
    rw [complete_of_some ((m.getMessagesForProcessing uid now).2) uid true now2 _ hl1, hm1]
    exact ⟨_, lookupSession_setSession_self _ _ _, by simp [UserSession.clearQueue]⟩
  · intro now2 ops now3 B2 hsafe hx2
    rw [hrestore now2] at hsafe hx2
    rcases safe_ops_session uid m s ops hl hsafe with ⟨s2, e2, h2, hq2, _⟩
    rcases extract_some_inv _ uid now3 B2 hx2 with ⟨s2b, hl2, _, hB2⟩
    rw [h2] at hl2
    injection hl2 with he
    refine ⟨e2, ?_⟩
    rw [hB2, ← he, hq2, hB]

theorem C1_witness :
    ∃ s, lookupSession [("u", (⟨"u", [⟨"m1", "u", "hi", MessageType.text, 0⟩], some 0, none, false, some 0, none⟩ : UserSession))] "u"
        = some s ∧ [(⟨"m1", "u", "hi", MessageType.text, 0⟩ : UserMessage)] = s.message_queue := by
  rcases C1_queue_cleared_only_on_success (UserSessionManager.mk 10 40 3600
      [("u", ⟨"u", [⟨"m1", "u", "hi", MessageType.text, 0⟩], some 0, none, false, some 0, none⟩)])
      "u" 40 [⟨"m1", "u", "hi", MessageType.text, 0⟩] (by decide) with ⟨s, h1, h2, _⟩
  exact ⟨s, h1, h2⟩

end Frederica
